import Mathlib

/-!
Verification of the blob-publishing subsystem in `pkg/serve/serve.go`.

The Go code publishes container-image content (config blobs, layer blobs,
manifests, index manifests) into a key/value object store keyed by content
digest, and answers registry-style requests either with metadata headers
(HEAD) or with a redirect to the blob location (GET).

The embedding below translates the Go functions into pure Lean functions.
Concurrency (the `errgroup` fan-outs) is modelled as a sequential fold that
runs every launched task to completion (the code uses a plain
`errgroup.Group` with no cancellation, so every goroutine runs regardless of
sibling failures) and reports the first error in launch order — one legal
schedule of the nondeterministic program.  Store failures are injected
through a `fail : String → Option Err` plan giving, per storage key, the
error (if any) that `bucket.PutObject` returns for that key.  The state
threads the store contents together with a log of every issued `PutObject`
call, tagged by its call site, so that temporal claims ("the manifest write
is never issued unless …") are statable.

The external collaborators (the go-containerregistry image model and the OSS
store client) are modelled at their interface contracts: a digest is the
hash of the corresponding raw bytes (`v1.Image.Digest`, `v1.Layer.Digest`,
`v1.Image.ConfigName`), `Size` is the raw manifest length, and stored
objects retain the metadata attached at write time.  `hashBytes` is an
injective stand-in for sha256.
-/

/-- Errors surfaced by the subsystem: store/transport failures
(`StoreError`), missing keys (`NotFoundError`), and parse failures inside
`BlobExists` (`v1.NewHash` and `strconv.ParseInt` errors). -/
inductive Err where
  | notFound : Err
  | store : String → Err
  | badHash : String → Err
  | badSize : String → Err
deriving DecidableEq, Repr

deriving instance DecidableEq for Except

/-- A `v1.Hash`: algorithm plus hex payload.  The zero value (both fields
empty) is Go's zero `v1.Hash`. -/
structure Hash where
  algorithm : String
  hex : String
deriving DecidableEq, Repr

/-- Go `v1.Hash.String()`: `algorithm:hex`. -/
def Hash.string (h : Hash) : String := h.algorithm ++ ":" ++ h.hex

/-- Zero `v1.Hash`. -/
def zeroHash : Hash := ⟨"", ""⟩

/-- Injective encoding of a byte list as a hex-like payload containing no
colon (so that `Hash.string` round-trips through `v1NewHash`). -/
def bytesHex (b : List Nat) : String :=
  (b.map toString).foldl (fun a s => a ++ "x" ++ s) "h"

/-- Model of the sha256 digest used by the image model collaborator. -/
def hashBytes (b : List Nat) : Hash := ⟨"sha256", bytesHex b⟩

/-- Splitting a character list at every occurrence of a separator, keeping
empty segments — `strings.Split` for a one-character separator. -/
def splitCharAux (c : Char) : List Char → List Char → List (List Char)
  | [], acc => [acc.reverse]
  | x :: xs, acc =>
    if x = c then acc.reverse :: splitCharAux c xs []
    else splitCharAux c xs (x :: acc)

/-- `strings.Split(s, c)` for a one-character separator. -/
def splitOnChar (c : Char) (s : String) : List String :=
  (splitCharAux c s.toList []).map String.mk

/-- Model of go-containerregistry `v1.NewHash`: parse `algorithm:hex`,
failing on any string that does not split into exactly two parts. -/
def v1NewHash (s : String) : Except Err Hash :=
  match splitOnChar ':' s with
  | [alg, hex] => Except.ok ⟨alg, hex⟩
  | _ => Except.error (Err.badHash s)

/-- Decimal accumulator: `none` as soon as a non-digit character occurs. -/
def parseDecAux : Nat → List Char → Option Nat
  | acc, [] => some acc
  | acc, c :: cs =>
    if c.isDigit then parseDecAux (acc * 10 + (c.toNat - 48)) cs else none

/-- Model of `strconv.ParseInt(_, 10, 64)` on the non-negative decimal
strings this subsystem stores as `Content-Length`: error on the empty
string or any non-digit character. -/
def parseSize (s : String) : Except Err Nat :=
  match s.toList with
  | [] => Except.error (Err.badSize s)
  | cs =>
    match parseDecAux 0 cs with
    | some n => Except.ok n
    | none => Except.error (Err.badSize s)

/-- A `v1.Descriptor`: digest, media type, size. -/
structure Descriptor where
  digest : Hash
  mediaType : String
  size : Nat
deriving DecidableEq, Repr

/-- A `v1.Layer` as this code consumes it: the compressed bytes
(`l.Compressed()`) and the declared media type (`l.MediaType()`);
`l.Digest()` is the hash of the compressed bytes. -/
structure Layer where
  content : List Nat
  mediaType : String
deriving DecidableEq, Repr

/-- `v1.Layer.Digest()`: hash of the compressed contents. -/
def Layer.digest (l : Layer) : Hash := hashBytes l.content

/-- A `v1.Image` as this code consumes it: raw config bytes, layers, raw
manifest bytes, and manifest media type. -/
structure Image where
  rawConfigFile : List Nat
  layers : List Layer
  rawManifest : List Nat
  mediaType : String
deriving DecidableEq, Repr

/-- `v1.Image.ConfigName()`: hash of the raw config file. -/
def Image.configName (i : Image) : Hash := hashBytes i.rawConfigFile

/-- `v1.Image.Digest()`: hash of the raw manifest. -/
def Image.digest (i : Image) : Hash := hashBytes i.rawManifest

/-- `v1.Image.Size()`: length in bytes of the raw manifest. -/
def Image.size (i : Image) : Nat := i.rawManifest.length

/-- A `v1.ImageIndex` as this code consumes it: the images referenced by
the index manifest (each `idx.Image(m.Digest)` resolution), the raw index
manifest bytes, and its media type. -/
structure ImageIndex where
  images : List Image
  rawManifest : List Nat
  mediaType : String
deriving DecidableEq, Repr

/-- `v1.ImageIndex.Digest()`: hash of the raw index manifest. -/
def ImageIndex.digest (i : ImageIndex) : Hash := hashBytes i.rawManifest

/-- `v1.ImageIndex.Size()`: length of the raw index manifest. -/
def ImageIndex.size (i : ImageIndex) : Nat := i.rawManifest.length

/-- An object as stored by `writeBlob`: the uploaded bytes, the
`oss.ContentType` option, and the two `oss.Meta` options
(`X-Oss-Meta-Content-Type` and `X-Oss-Meta-Docker-Content-Digest`). -/
structure StoredObject where
  content : List Nat
  contentType : String
  metaContentTypeVal : String
  metaDigest : String
deriving DecidableEq, Repr

/-- The object store: an association list from storage key to object, with
at most one entry per key (maintained by `Store.set`). -/
abbrev Store := List (String × StoredObject)

/-- `PutObject` semantics on the store map: replace any entry under the
key, placing the written entry last. -/
def Store.set (st : Store) (k : String) (v : StoredObject) : Store :=
  st.filter (fun p => p.1 != k) ++ [(k, v)]

/-- Key lookup in the store. -/
def Store.find (st : Store) (k : String) : Option StoredObject :=
  (List.find? (fun p => p.1 == k) st).map Prod.snd

/-- Call sites that issue `PutObject` requests, used to tag the write log. -/
inductive Tag where
  | config : Tag
  | layer : Tag
  | imageManifest : Tag
  | imageAlias : Tag
  | indexManifest : Tag
  | indexAlias : Tag
deriving DecidableEq, Repr

/-- World state threaded through the writers: the store contents plus the
chronological log of issued `PutObject` calls (tag and key), whether or not
they succeeded. -/
structure WState where
  store : Store
  log : List (Tag × String)
deriving DecidableEq, Repr

def metaContentLength : String := "Content-Length"

def metaContentType : String := "Content-Type"

def metaDockerContentDigest : String := "Docker-Content-Digest"

/-- `(*Storage).writeBlob`: issue a `PutObject` for `blobs/<name>` with the
content-type option and the two metadata options; on store failure (per the
injected plan) the store is unchanged and the error is returned. -/
def writeBlob (fail : String → Option Err) (tag : Tag) (s : WState)
    (name : String) (h : Hash) (content : List Nat) (contentType : String) :
    WState × Except Err Unit :=
  match fail ("blobs/" ++ name) with
  | some e => (⟨s.store, s.log ++ [(tag, "blobs/" ++ name)]⟩, Except.error e)
  | none =>
      (⟨s.store.set ("blobs/" ++ name) ⟨content, contentType, contentType, h.string⟩,
        s.log ++ [(tag, "blobs/" ++ name)]⟩,
       Except.ok ())

/-- The failure plan under which every store write succeeds. -/
def noFail : String → Option Err := fun _ => none

/-- The layer fan-out of `WriteImage` (lines 223–244): every layer write is
launched; all run to completion regardless of sibling failures (plain
`errgroup.Group`, no cancellation), and `g.Wait()` reports the first error
in launch order. -/
def writeLayersGo (fail : String → Option Err) (s : WState) :
    List Layer → WState × Option Err
  | [] => (s, none)
  | l :: rest =>
    match writeBlob fail Tag.layer s l.digest.string l.digest l.content l.mediaType with
    | (s2, Except.ok _) => writeLayersGo fail s2 rest
    | (s2, Except.error e) => ((writeLayersGo fail s2 rest).1, some e)

/-- The alias fan-out shared by `WriteImage` (lines 262–268) and
`ServeIndex` (lines 176–184): write the same bytes under each alias name;
all writes run, first error in launch order is reported. -/
def writeAliasesGo (fail : String → Option Err) (tag : Tag) (digest : Hash)
    (b : List Nat) (mt : String) (s : WState) :
    List String → WState × Option Err
  | [] => (s, none)
  | a :: rest =>
    match writeBlob fail tag s a digest b mt with
    | (s2, Except.ok _) => writeAliasesGo fail tag digest b mt s2 rest
    | (s2, Except.error e) => ((writeAliasesGo fail tag digest b mt s2 rest).1, some e)

/-- `(*Storage).WriteImage` (lines 204–270): write the config blob under
its digest with content type `application/json`; then the layer fan-out;
once all layers succeeded, write the manifest under its digest; then the
alias fan-out for `also`. -/
def WriteImage (fail : String → Option Err) (s : WState) (img : Image)
    (also : List String) : WState × Except Err Unit :=
  match writeBlob fail Tag.config s img.configName.string img.configName
      img.rawConfigFile "application/json" with
  | (s1, Except.error e) => (s1, Except.error e)
  | (s1, Except.ok _) =>
    match writeLayersGo fail s1 img.layers with
    | (s2, some e) => (s2, Except.error e)
    | (s2, none) =>
      match writeBlob fail Tag.imageManifest s2 img.digest.string img.digest
          img.rawManifest img.mediaType with
      | (s3, Except.error e) => (s3, Except.error e)
      | (s3, Except.ok _) =>
        match writeAliasesGo fail Tag.imageAlias img.digest img.rawManifest
            img.mediaType s3 also with
        | (s4, some e) => (s4, Except.error e)
        | (s4, none) => (s4, Except.ok ())

/-- The image fan-out of `ServeIndex` (lines 144–157): `WriteImage` for
every image referenced by the index, concurrently; all run, first error in
launch order is reported. -/
def writeImagesGo (fail : String → Option Err) (s : WState) :
    List Image → WState × Option Err
  | [] => (s, none)
  | img :: rest =>
    match WriteImage fail s img [] with
    | (s2, Except.ok _) => writeImagesGo fail s2 rest
    | (s2, Except.error e) => ((writeImagesGo fail s2 rest).1, some e)

/-- Request methods distinguished by the serving layer. -/
inductive Method where
  | head : Method
  | get : Method
deriving DecidableEq, Repr

/-- The observable effect on the `http.ResponseWriter`: headers set via
`w.Header().Set`, and an issued redirect (status code and Location). -/
structure Response where
  headers : List (String × String)
  redirect : Option (Nat × String)
deriving DecidableEq, Repr

/-- A fresh response writer: no headers set, no redirect issued. -/
def Response.empty : Response := ⟨[], none⟩

/-- `http.Header.Set`: replace any existing value for the key. -/
def setHeader (hs : List (String × String)) (k v : String) :
    List (String × String) :=
  hs.filter (fun p => p.1 != k) ++ [(k, v)]

/-- The three `w.Header().Set` calls of the HEAD branches (lines 192–194
and 295–297), in program order: digest, content type, content length. -/
def setHeadHeaders (hs : List (String × String)) (d : Hash) (mt : String)
    (size : Nat) : List (String × String) :=
  setHeader (setHeader (setHeader hs metaDockerContentDigest d.string)
    metaContentType mt) metaContentLength (toString size)

/-- The store endpoint configuration (`BUCKET` and `ENDPOINT`). -/
structure Config where
  bucket : String
  endpoint : String
deriving DecidableEq, Repr

/-- The redirect-target mapping of `Blob` (line 37):
`https://{bucket}.{endpoint}/blobs/{name}` — the spec's `resolveLocation`. -/
def resolveLocation (cfg : Config) (name : String) : String :=
  "https://" ++ cfg.bucket ++ "." ++ cfg.endpoint ++ "/blobs/" ++ name

/-- `Blob` (lines 36–39): `http.Redirect` to the resolved location with
`http.StatusSeeOther` (303). -/
def Blob (cfg : Config) (w : Response) (name : String) : Response :=
  { w with redirect := some (303, resolveLocation cfg name) }

/-- `(*Storage).ServeIndex` (lines 138–201): write every referenced image,
then the index manifest under its digest, then the aliases; on HEAD set the
digest/type/length headers, otherwise redirect to the manifest blob.  Every
failure path returns before touching the response writer. -/
def ServeIndex (cfg : Config) (fail : String → Option Err) (s : WState)
    (w : Response) (method : Method) (idx : ImageIndex) (also : List String) :
    WState × Response × Except Err Unit :=
  match writeImagesGo fail s idx.images with
  | (s1, some e) => (s1, w, Except.error e)
  | (s1, none) =>
    match writeBlob fail Tag.indexManifest s1 idx.digest.string idx.digest
        idx.rawManifest idx.mediaType with
    | (s2, Except.error e) => (s2, w, Except.error e)
    | (s2, Except.ok _) =>
      match writeAliasesGo fail Tag.indexAlias idx.digest idx.rawManifest
          idx.mediaType s2 also with
      | (s3, some e) => (s3, w, Except.error e)
      | (s3, none) =>
        match method with
        | Method.head =>
            (s3, { w with headers := setHeadHeaders w.headers idx.digest idx.mediaType idx.size },
             Except.ok ())
        | Method.get => (s3, Blob cfg w idx.digest.string, Except.ok ())

/-- `(*Storage).ServeManifest` (lines 274–304): `WriteImage` with the
aliases, then on HEAD set the digest/type/length headers, otherwise
redirect to the manifest blob.  Every failure path returns before touching
the response writer. -/
def ServeManifest (cfg : Config) (fail : String → Option Err) (s : WState)
    (w : Response) (method : Method) (img : Image) (also : List String) :
    WState × Response × Except Err Unit :=
  match WriteImage fail s img also with
  | (s1, Except.error e) => (s1, w, Except.error e)
  | (s1, Except.ok _) =>
    match method with
    | Method.head =>
        (s1, { w with headers := setHeadHeaders w.headers img.digest img.mediaType img.size },
         Except.ok ())
    | Method.get => (s1, Blob cfg w img.digest.string, Except.ok ())

/-- The detailed metadata the OSS store reports for a stored object:
`Content-Length` is the stored byte count, `Content-Type` the content-type
option given at write time, and the two `X-Oss-Meta-` headers the metadata
options given at write time. -/
def objMetadata (o : StoredObject) : List (String × List String) :=
  [(metaContentLength, [toString o.content.length]),
   (metaContentType, [o.contentType]),
   ("X-Oss-Meta-" ++ metaContentType, [o.metaContentTypeVal]),
   ("X-Oss-Meta-" ++ metaDockerContentDigest, [o.metaDigest])]

/-- `http.Header` lookup: the value list for a key, the empty list when the
key is absent (Go's zero value for a missing map entry). -/
def mget (md : List (String × List String)) (k : String) : List String :=
  match List.find? (fun p => p.1 == k) md with
  | some p => p.2
  | none => []

/-- Lines 73–79 of `BlobExists`: the digest metadata entry is parsed only
when it has exactly one value; otherwise the zero hash is kept. -/
def digestStep (md : List (String × List String)) : Except Err Hash :=
  match mget md ("X-Oss-Meta-" ++ metaDockerContentDigest) with
  | [d] => v1NewHash d
  | _ => Except.ok zeroHash

/-- Lines 81–88 of `BlobExists`: the `Content-Length` entry is parsed only
when it has exactly one value; otherwise size 0 is kept. -/
def sizeStep (md : List (String × List String)) : Except Err Nat :=
  match mget md metaContentLength with
  | [d] => parseSize d
  | _ => Except.ok 0

/-- Lines 73–94 of `BlobExists`, as a function of the metadata map.  The
final `objMetadata[metaContentType][0]` indexes the `Content-Type` value
list unconditionally; `none` models the panic when that list is empty
(index out of range on Go's zero-value slice). -/
def blobExistsMeta (md : List (String × List String)) :
    Option (Except Err Descriptor) :=
  match digestStep md with
  | Except.error e => some (Except.error e)
  | Except.ok h =>
    match sizeStep md with
    | Except.error e => some (Except.error e)
    | Except.ok size =>
      match (mget md metaContentType).head? with
      | none => none
      | some ct => some (Except.ok ⟨h, ct, size⟩)

/-- `(*Storage).BlobExists` (lines 61–95): fetch the detailed metadata of
`blobs/<name>` (`NotFoundError` when absent) and decode it. -/
def BlobExists (st : Store) (name : String) : Option (Except Err Descriptor) :=
  match st.find ("blobs/" ++ name) with
  | none => some (Except.error Err.notFound)
  | some o => blobExistsMeta (objMetadata o)

/-- Decidable check that `BlobExists` reports a stored blob without error. -/
def existsOk (st : Store) (name : String) : Bool :=
  match BlobExists st name with
  | some (Except.ok _) => true
  | _ => false

/-- The storage key of an image's config blob. -/
def configKey (img : Image) : String := "blobs/" ++ img.configName.string

/-- The storage key of a layer blob. -/
def layerKey (l : Layer) : String := "blobs/" ++ l.digest.string

/-- The storage key of an image's manifest blob. -/
def manifestKey (img : Image) : String := "blobs/" ++ img.digest.string

/-- The storage key of an index's manifest blob. -/
def indexKey (idx : ImageIndex) : String := "blobs/" ++ idx.digest.string

/-- The storage key of an alias. -/
def aliasKey (a : String) : String := "blobs/" ++ a

/-- The store entry a successful `writeBlob name h content ct` produces. -/
def blobPair (name : String) (h : Hash) (content : List Nat) (ct : String) :
    String × StoredObject :=
  ("blobs/" ++ name, ⟨content, ct, ct, h.string⟩)

/-- The store entry of an image's config blob write. -/
def configPair (img : Image) : String × StoredObject :=
  blobPair img.configName.string img.configName img.rawConfigFile "application/json"

/-- The store entry of a layer blob write. -/
def layerPair (l : Layer) : String × StoredObject :=
  blobPair l.digest.string l.digest l.content l.mediaType

/-- The store entry of an image's manifest blob write. -/
def imageManifestPair (img : Image) : String × StoredObject :=
  blobPair img.digest.string img.digest img.rawManifest img.mediaType

/-- The store entry of an alias write for content with the given digest,
bytes and media type. -/
def aliasPair (h : Hash) (b : List Nat) (mt : String) (a : String) :
    String × StoredObject :=
  blobPair a h b mt

/-- The store entry of an index's manifest blob write. -/
def indexManifestPair (idx : ImageIndex) : String × StoredObject :=
  blobPair idx.digest.string idx.digest idx.rawManifest idx.mediaType

/-- Apply a list of key/value writes to the store in order. -/
def applyWrites (st : Store) (ws : List (String × StoredObject)) : Store :=
  ws.foldl (fun s kv => s.set kv.1 kv.2) st

/-- The full sequence of store entries a failure-free
`WriteImage img also` writes, in write order. -/
def imageWrites (img : Image) (also : List String) :
    List (String × StoredObject) :=
  configPair img ::
    (img.layers.map layerPair ++
      imageManifestPair img ::
        also.map (aliasPair img.digest img.rawManifest img.mediaType))

/-- The log entries of a failure-free `WriteImage img also`, in order. -/
def imageLogEntries (img : Image) (also : List String) : List (Tag × String) :=
  (Tag.config, configKey img) ::
    (img.layers.map (fun l => (Tag.layer, layerKey l)) ++
      (Tag.imageManifest, manifestKey img) ::
        also.map (fun a => (Tag.imageAlias, aliasKey a)))

/-- The `PutObject` calls `WriteImage img also` issues under a given
failure plan: the config write is always issued; the layer fan-out is
launched only when the config write succeeded, and then every layer write
is issued; the manifest write is issued only when config and all layers
succeeded; the alias fan-out is launched only when the manifest write also
succeeded, and then every alias write is issued. -/
def issuedImageLog (fail : String → Option Err) (img : Image)
    (also : List String) : List (Tag × String) :=
  match fail (configKey img) with
  | some _ => [(Tag.config, configKey img)]
  | none =>
    (Tag.config, configKey img) ::
      (img.layers.map (fun l => (Tag.layer, layerKey l)) ++
        match (img.layers.filterMap (fun l => fail (layerKey l))).head? with
        | some _ => []
        | none =>
          (Tag.imageManifest, manifestKey img) ::
            match fail (manifestKey img) with
            | some _ => []
            | none => also.map (fun a => (Tag.imageAlias, aliasKey a)))

/-- All store writes of a `WriteImage fail img also` call succeed. -/
def imageWriteOk (fail : String → Option Err) (img : Image)
    (also : List String) : Prop :=
  fail (configKey img) = none ∧
    (∀ l ∈ img.layers, fail (layerKey l) = none) ∧
    fail (manifestKey img) = none ∧
    ∀ a ∈ also, fail (aliasKey a) = none

/-- The digest-consistency invariant of §3 of the spec, for one store
entry: the stored digest metadata is the digest of the stored bytes, and
the key is either the digest-derived key or one of the alias names ever
passed to the subsystem. -/
def goodEntry (aliases : List String) (p : String × StoredObject) : Prop :=
  p.2.metaDigest = (hashBytes p.2.content).string ∧
    (p.1 = "blobs/" ++ p.2.metaDigest ∨ ∃ a ∈ aliases, p.1 = aliasKey a)

/-- Concrete image A of the §8 scenario: one layer. -/
def imgA : Image := ⟨[1], [⟨[2], "lA"⟩], [3], "mA"⟩

/-- Concrete image B of the §8 scenario: two layers. -/
def imgB : Image := ⟨[4], [⟨[5], "lB"⟩, ⟨[6], "lB2"⟩], [7], "mB"⟩

/-- Concrete index of the §8 scenario, referencing images A and B. -/
def idx0 : ImageIndex := ⟨[imgA, imgB], [8], "mi"⟩

/-- A concrete endpoint configuration. -/
def cfg0 : Config := ⟨"b", "e"⟩

/-- An image with two identical layers: both layer writes target the same
digest-derived key. -/
def imgDup : Image := ⟨[0], [⟨[1], "t"⟩, ⟨[1], "t"⟩], [2], "m"⟩

/-- A metadata map with no `Content-Type` entry whose digest entry does
not parse as a hash. -/
def mdC10 : List (String × List String) :=
  [("X-Oss-Meta-" ++ metaDockerContentDigest, ["garbage"])]

/-- A metadata map with a `Content-Type` entry and nothing else. -/
def mdCT : List (String × List String) := [(metaContentType, ["text/plain"])]

/-- A failure plan that fails exactly the writes to the key of the layer
with contents `[2]` (the layer of `imgA`). -/
def failLayer2 : String → Option Err :=
  fun k => if k = layerKey ⟨[2], "lA"⟩ then some (Err.store "boom") else none

/-- A failure plan that fails exactly the writes to the config key of
`imgA`. -/
def failConfigA : String → Option Err :=
  fun k => if k = configKey imgA then some (Err.store "down") else none

theorem writeBlob_log (fail : String → Option Err) (tag : Tag) (s : WState)
    (name : String) (h : Hash) (c : List Nat) (ct : String) :
    (writeBlob fail tag s name h c ct).1.log = s.log ++ [(tag, "blobs/" ++ name)] := by
  unfold writeBlob
  cases fail ("blobs/" ++ name) <;> rfl

theorem writeBlob_none (fail : String → Option Err) (tag : Tag) (s : WState)
    (name : String) (h : Hash) (c : List Nat) (ct : String)
    (hf : fail ("blobs/" ++ name) = none) :
    writeBlob fail tag s name h c ct =
      (⟨s.store.set ("blobs/" ++ name) ⟨c, ct, ct, h.string⟩,
        s.log ++ [(tag, "blobs/" ++ name)]⟩, Except.ok ()) := by
  unfold writeBlob
  rw [hf]

theorem writeBlob_some (fail : String → Option Err) (tag : Tag) (s : WState)
    (name : String) (h : Hash) (c : List Nat) (ct : String) (e : Err)
    (hf : fail ("blobs/" ++ name) = some e) :
    writeBlob fail tag s name h c ct =
      (⟨s.store, s.log ++ [(tag, "blobs/" ++ name)]⟩, Except.error e) := by
  unfold writeBlob
  rw [hf]

theorem writeLayersGo_log (fail : String → Option Err) (ls : List Layer) (s : WState) :
    (writeLayersGo fail s ls).1.log = s.log ++ ls.map (fun l => (Tag.layer, layerKey l)) := by
  induction ls generalizing s with
  | nil => simp [writeLayersGo]
  | cons l rest ih =>
    cases hf : fail ("blobs/" ++ l.digest.string) with
    | none =>
      simp only [writeLayersGo, writeBlob_none fail Tag.layer s l.digest.string l.digest
        l.content l.mediaType hf, ih, layerKey]
      simp
    | some e =>
      simp only [writeLayersGo, writeBlob_some fail Tag.layer s l.digest.string l.digest
        l.content l.mediaType e hf, ih, layerKey]
      simp

theorem writeLayersGo_err (fail : String → Option Err) (ls : List Layer) (s : WState) :
    (writeLayersGo fail s ls).2 =
      (ls.filterMap (fun l => fail (layerKey l))).head? := by
  induction ls generalizing s with
  | nil => simp [writeLayersGo]
  | cons l rest ih =>
    cases hf : fail ("blobs/" ++ l.digest.string) with
    | none =>
      simp only [writeLayersGo, writeBlob_none fail Tag.layer s l.digest.string l.digest
        l.content l.mediaType hf, ih, layerKey]
      simp [List.filterMap_cons, hf, layerKey]
    | some e =>
      simp only [writeLayersGo, writeBlob_some fail Tag.layer s l.digest.string l.digest
        l.content l.mediaType e hf, layerKey]
      simp [List.filterMap_cons, hf, layerKey]

theorem Store.mem_set (st : Store) (k : String) (v : StoredObject)
    (p : String × StoredObject) (hp : p ∈ st.set k v) : p ∈ st ∨ p = (k, v) := by
  unfold Store.set at hp
  rcases List.mem_append.mp hp with h1 | h2
  · exact Or.inl (List.mem_filter.mp h1).1
  · exact Or.inr (List.mem_singleton.mp h2)

theorem writeLayersGo_store_mem (fail : String → Option Err) (ls : List Layer)
    (s : WState) (p : String × StoredObject)
    (hp : p ∈ (writeLayersGo fail s ls).1.store) :
    p ∈ s.store ∨ ∃ l ∈ ls, p = layerPair l := by
  induction ls generalizing s with
  | nil => exact Or.inl hp
  | cons l rest ih =>
    cases hf : fail ("blobs/" ++ l.digest.string) with
    | none =>
      simp only [writeLayersGo, writeBlob_none fail Tag.layer s l.digest.string l.digest
        l.content l.mediaType hf] at hp
      rcases ih _ hp with h1 | ⟨l', hl', rfl⟩
      · rcases Store.mem_set _ _ _ _ h1 with h2 | h2
        · exact Or.inl h2
        · exact Or.inr ⟨l, List.mem_cons_self l rest, by simpa [layerPair, blobPair] using h2⟩
      · exact Or.inr ⟨l', List.mem_cons_of_mem l hl', rfl⟩
    | some e =>
      simp only [writeLayersGo, writeBlob_some fail Tag.layer s l.digest.string l.digest
        l.content l.mediaType e hf] at hp
      rcases ih _ hp with h1 | ⟨l', hl', rfl⟩
      · exact Or.inl h1
      · exact Or.inr ⟨l', List.mem_cons_of_mem l hl', rfl⟩

theorem writeLayersGo_noFail (ls : List Layer) (s : WState) :
    writeLayersGo noFail s ls =
      (⟨applyWrites s.store (ls.map layerPair),
        s.log ++ ls.map (fun l => (Tag.layer, layerKey l))⟩, none) := by
  induction ls generalizing s with
  | nil => simp [writeLayersGo, applyWrites]
  | cons l rest ih =>
    simp only [writeLayersGo, writeBlob_none noFail Tag.layer s l.digest.string l.digest
      l.content l.mediaType rfl, ih]
    simp [applyWrites, layerPair, layerKey, blobPair]

theorem writeAliasesGo_log (fail : String → Option Err) (tag : Tag) (d : Hash)
    (b : List Nat) (mt : String) (names : List String) (s : WState) :
    (writeAliasesGo fail tag d b mt s names).1.log =
      s.log ++ names.map (fun a => (tag, aliasKey a)) := by
  induction names generalizing s with
  | nil => simp [writeAliasesGo]
  | cons a rest ih =>
    cases hf : fail ("blobs/" ++ a) with
    | none =>
      simp only [writeAliasesGo, writeBlob_none fail tag s a d b mt hf, ih, aliasKey]
      simp
    | some e =>
      simp only [writeAliasesGo, writeBlob_some fail tag s a d b mt e hf, ih, aliasKey]
      simp

theorem writeAliasesGo_err (fail : String → Option Err) (tag : Tag) (d : Hash)
    (b : List Nat) (mt : String) (names : List String) (s : WState) :
    (writeAliasesGo fail tag d b mt s names).2 =
      (names.filterMap (fun a => fail (aliasKey a))).head? := by
  induction names generalizing s with
  | nil => simp [writeAliasesGo]
  | cons a rest ih =>
    cases hf : fail ("blobs/" ++ a) with
    | none =>
      simp only [writeAliasesGo, writeBlob_none fail tag s a d b mt hf, ih, aliasKey]
      simp [List.filterMap_cons, hf, aliasKey]
    | some e =>
      simp only [writeAliasesGo, writeBlob_some fail tag s a d b mt e hf, aliasKey]
      simp [List.filterMap_cons, hf, aliasKey]

theorem writeAliasesGo_store_mem (fail : String → Option Err) (tag : Tag) (d : Hash)
    (b : List Nat) (mt : String) (names : List String) (s : WState)
    (p : String × StoredObject)
    (hp : p ∈ (writeAliasesGo fail tag d b mt s names).1.store) :
    p ∈ s.store ∨ ∃ a ∈ names, p = aliasPair d b mt a := by
  induction names generalizing s with
  | nil => exact Or.inl hp
  | cons a rest ih =>
    cases hf : fail ("blobs/" ++ a) with
    | none =>
      simp only [writeAliasesGo, writeBlob_none fail tag s a d b mt hf] at hp
      rcases ih _ hp with h1 | ⟨a', ha', rfl⟩
      · rcases Store.mem_set _ _ _ _ h1 with h2 | h2
        · exact Or.inl h2
        · exact Or.inr ⟨a, List.mem_cons_self a rest, by simpa [aliasPair, blobPair] using h2⟩
      · exact Or.inr ⟨a', List.mem_cons_of_mem a ha', rfl⟩
    | some e =>
      simp only [writeAliasesGo, writeBlob_some fail tag s a d b mt e hf] at hp
      rcases ih _ hp with h1 | ⟨a', ha', rfl⟩
      · exact Or.inl h1
      · exact Or.inr ⟨a', List.mem_cons_of_mem a ha', rfl⟩

theorem writeAliasesGo_noFail (tag : Tag) (d : Hash) (b : List Nat) (mt : String)
    (names : List String) (s : WState) :
    writeAliasesGo noFail tag d b mt s names =
      (⟨applyWrites s.store (names.map (aliasPair d b mt)),
        s.log ++ names.map (fun a => (tag, aliasKey a))⟩, none) := by
  induction names generalizing s with
  | nil => simp [writeAliasesGo, applyWrites]
  | cons a rest ih =>
    simp only [writeAliasesGo, writeBlob_none noFail tag s a d b mt rfl, ih]
    simp [applyWrites, aliasPair, aliasKey, blobPair]

theorem writeBlob_noFail (tag : Tag) (s : WState) (name : String) (h : Hash)
    (c : List Nat) (ct : String) :
    writeBlob noFail tag s name h c ct =
      (⟨s.store.set ("blobs/" ++ name) ⟨c, ct, ct, h.string⟩,
        s.log ++ [(tag, "blobs/" ++ name)]⟩, Except.ok ()) :=
  writeBlob_none noFail tag s name h c ct rfl

theorem WriteImage_noFail (s : WState) (img : Image) (also : List String) :
    WriteImage noFail s img also =
      (⟨applyWrites s.store (imageWrites img also),
        s.log ++ imageLogEntries img also⟩, Except.ok ()) := by
  simp only [WriteImage, writeBlob_noFail, writeLayersGo_noFail, writeAliasesGo_noFail]
  simp [applyWrites, imageWrites, imageLogEntries, List.foldl_append, configPair,
    imageManifestPair, configKey, manifestKey, layerKey, blobPair]

theorem WriteImage_log_eq (fail : String → Option Err) (s : WState) (img : Image)
    (also : List String) :
    (WriteImage fail s img also).1.log = s.log ++ issuedImageLog fail img also := by
  cases hc : fail (configKey img) with
  | some e =>
    simp only [WriteImage, writeBlob_some fail Tag.config s img.configName.string
      img.configName img.rawConfigFile "application/json" e hc, issuedImageLog, hc]
    simp [configKey]
  | none =>
    simp only [WriteImage, writeBlob_none fail Tag.config s img.configName.string
      img.configName img.rawConfigFile "application/json" hc, issuedImageLog, hc]
    cases hw : writeLayersGo fail
        ⟨s.store.set ("blobs/" ++ img.configName.string)
          ⟨img.rawConfigFile, "application/json", "application/json", img.configName.string⟩,
          s.log ++ [(Tag.config, "blobs/" ++ img.configName.string)]⟩ img.layers with
    | mk s2 r =>
      have hlog2 : s2.log =
          (s.log ++ [(Tag.config, configKey img)]) ++
            img.layers.map (fun l => (Tag.layer, layerKey l)) := by
        have h2 := writeLayersGo_log fail img.layers
          ⟨s.store.set ("blobs/" ++ img.configName.string)
            ⟨img.rawConfigFile, "application/json", "application/json", img.configName.string⟩,
            s.log ++ [(Tag.config, "blobs/" ++ img.configName.string)]⟩
        rw [hw] at h2
        exact h2
      have herr2 : r = (img.layers.filterMap (fun l => fail (layerKey l))).head? := by
        have h2 := writeLayersGo_err fail img.layers
          ⟨s.store.set ("blobs/" ++ img.configName.string)
            ⟨img.rawConfigFile, "application/json", "application/json", img.configName.string⟩,
            s.log ++ [(Tag.config, "blobs/" ++ img.configName.string)]⟩
        rw [hw] at h2
        exact h2
      cases r with
      | some e =>
        rw [← herr2]
        simp [hlog2, configKey]
      | none =>
        rw [← herr2]
        cases hm : fail (manifestKey img) with
        | some e =>
          simp only [writeBlob_some fail Tag.imageManifest s2 img.digest.string img.digest
            img.rawManifest img.mediaType e hm, hm]
          simp [hlog2, configKey, manifestKey]
        | none =>
          simp only [writeBlob_none fail Tag.imageManifest s2 img.digest.string img.digest
            img.rawManifest img.mediaType hm, hm]
          cases ha : writeAliasesGo fail Tag.imageAlias img.digest img.rawManifest img.mediaType
              ⟨s2.store.set ("blobs/" ++ img.digest.string)
                ⟨img.rawManifest, img.mediaType, img.mediaType, img.digest.string⟩,
                s2.log ++ [(Tag.imageManifest, "blobs/" ++ img.digest.string)]⟩ also with
          | mk s4 r4 =>
            have hlog4 : s4.log =
                (s2.log ++ [(Tag.imageManifest, manifestKey img)]) ++
                  also.map (fun a => (Tag.imageAlias, aliasKey a)) := by
              have h4 := writeAliasesGo_log fail Tag.imageAlias img.digest img.rawManifest
                img.mediaType also
                ⟨s2.store.set ("blobs/" ++ img.digest.string)
                  ⟨img.rawManifest, img.mediaType, img.mediaType, img.digest.string⟩,
                  s2.log ++ [(Tag.imageManifest, "blobs/" ++ img.digest.string)]⟩
              rw [ha] at h4
              exact h4
            cases r4 <;> simp [hlog4, hlog2, configKey, manifestKey]

theorem head?_filterMap_none {α β : Type} (f : α → Option β) (l : List α) :
    (l.filterMap f).head? = none ↔ ∀ x ∈ l, f x = none := by
  rw [List.head?_eq_none_iff, List.filterMap_eq_nil_iff]

theorem WriteImage_ok_iff (fail : String → Option Err) (s : WState) (img : Image)
    (also : List String) :
    (WriteImage fail s img also).2 = Except.ok () ↔ imageWriteOk fail img also := by
  cases hc : fail (configKey img) with
  | some e =>
    simp only [WriteImage, writeBlob_some fail Tag.config s img.configName.string
      img.configName img.rawConfigFile "application/json" e hc]
    simp [imageWriteOk, hc]
  | none =>
    simp only [WriteImage, writeBlob_none fail Tag.config s img.configName.string
      img.configName img.rawConfigFile "application/json" hc]
    cases hw : writeLayersGo fail
        ⟨s.store.set ("blobs/" ++ img.configName.string)
          ⟨img.rawConfigFile, "application/json", "application/json", img.configName.string⟩,
          s.log ++ [(Tag.config, "blobs/" ++ img.configName.string)]⟩ img.layers with
    | mk s2 r =>
      have herr2 : r = (img.layers.filterMap (fun l => fail (layerKey l))).head? := by
        have h2 := writeLayersGo_err fail img.layers
          ⟨s.store.set ("blobs/" ++ img.configName.string)
            ⟨img.rawConfigFile, "application/json", "application/json", img.configName.string⟩,
            s.log ++ [(Tag.config, "blobs/" ++ img.configName.string)]⟩
        rw [hw] at h2
        exact h2
      cases r with
      | some e =>
        have hnot : ¬ ∀ l ∈ img.layers, fail (layerKey l) = none := by
          intro hall
          have : (img.layers.filterMap (fun l => fail (layerKey l))).head? = none :=
            (head?_filterMap_none _ _).mpr hall
          rw [← herr2] at this
          exact Option.noConfusion this
        simp [imageWriteOk, hc, hnot]
      | none =>
        have hall : ∀ l ∈ img.layers, fail (layerKey l) = none :=
          (head?_filterMap_none _ _).mp herr2.symm
        cases hm : fail (manifestKey img) with
        | some e =>
          simp only [writeBlob_some fail Tag.imageManifest s2 img.digest.string img.digest
            img.rawManifest img.mediaType e hm]
          simp [imageWriteOk, hm]
        | none =>
          simp only [writeBlob_none fail Tag.imageManifest s2 img.digest.string img.digest
            img.rawManifest img.mediaType hm]
          cases ha : writeAliasesGo fail Tag.imageAlias img.digest img.rawManifest img.mediaType
              ⟨s2.store.set ("blobs/" ++ img.digest.string)
                ⟨img.rawManifest, img.mediaType, img.mediaType, img.digest.string⟩,
                s2.log ++ [(Tag.imageManifest, "blobs/" ++ img.digest.string)]⟩ also with
          | mk s4 r4 =>
            have herr4 : r4 = (also.filterMap (fun a => fail (aliasKey a))).head? := by
              have h4 := writeAliasesGo_err fail Tag.imageAlias img.digest img.rawManifest
                img.mediaType also
                ⟨s2.store.set ("blobs/" ++ img.digest.string)
                  ⟨img.rawManifest, img.mediaType, img.mediaType, img.digest.string⟩,
                  s2.log ++ [(Tag.imageManifest, "blobs/" ++ img.digest.string)]⟩
              rw [ha] at h4
              exact h4
            cases r4 with
            | some e =>
              have hnot : ¬ ∀ a ∈ also, fail (aliasKey a) = none := by
                intro hall4
                have : (also.filterMap (fun a => fail (aliasKey a))).head? = none :=
                  (head?_filterMap_none _ _).mpr hall4
                rw [← herr4] at this
                exact Option.noConfusion this
              simp [imageWriteOk, hnot]
            | none =>
              have hall4 : ∀ a ∈ also, fail (aliasKey a) = none :=
                (head?_filterMap_none _ _).mp herr4.symm
              constructor
              · intro _
                exact ⟨hc, hall, hm, hall4⟩
              · intro _
                rfl

theorem WriteImage_store_mem (fail : String → Option Err) (s : WState) (img : Image)
    (also : List String) (p : String × StoredObject)
    (hp : p ∈ (WriteImage fail s img also).1.store) :
    p ∈ s.store ∨ p ∈ imageWrites img also := by
  cases hc : fail (configKey img) with
  | some e =>
    simp only [WriteImage, writeBlob_some fail Tag.config s img.configName.string
      img.configName img.rawConfigFile "application/json" e hc] at hp
    exact Or.inl hp
  | none =>
    simp only [WriteImage, writeBlob_none fail Tag.config s img.configName.string
      img.configName img.rawConfigFile "application/json" hc] at hp
    cases hw : writeLayersGo fail
        ⟨s.store.set ("blobs/" ++ img.configName.string)
          ⟨img.rawConfigFile, "application/json", "application/json", img.configName.string⟩,
          s.log ++ [(Tag.config, "blobs/" ++ img.configName.string)]⟩ img.layers with
    | mk s2 r =>
      rw [hw] at hp
      have hs2 : ∀ q, q ∈ s2.store → q ∈ s.store ∨ q ∈ imageWrites img also := by
        intro q hq
        have hq2 : q ∈ (writeLayersGo fail
            ⟨s.store.set ("blobs/" ++ img.configName.string)
              ⟨img.rawConfigFile, "application/json", "application/json", img.configName.string⟩,
              s.log ++ [(Tag.config, "blobs/" ++ img.configName.string)]⟩ img.layers).1.store := by
          rw [hw]
          exact hq
        rcases writeLayersGo_store_mem fail img.layers _ q hq2 with h1 | ⟨l, hl, rfl⟩
        · rcases Store.mem_set _ _ _ _ h1 with h2 | h2
          · exact Or.inl h2
          · exact Or.inr (by
              rw [h2]
              exact List.mem_cons_self _ _)
        · exact Or.inr (by
            simp only [imageWrites]
            exact List.mem_cons_of_mem _ (List.mem_append_left _ (List.mem_map_of_mem layerPair hl)))
      cases r with
      | some e =>
        exact hs2 p hp
      | none =>
        cases hm : fail (manifestKey img) with
        | some e =>
          simp only [writeBlob_some fail Tag.imageManifest s2 img.digest.string img.digest
            img.rawManifest img.mediaType e hm] at hp
          exact hs2 p hp
        | none =>
          simp only [writeBlob_none fail Tag.imageManifest s2 img.digest.string img.digest
            img.rawManifest img.mediaType hm] at hp
          cases ha : writeAliasesGo fail Tag.imageAlias img.digest img.rawManifest img.mediaType
              ⟨s2.store.set ("blobs/" ++ img.digest.string)
                ⟨img.rawManifest, img.mediaType, img.mediaType, img.digest.string⟩,
                s2.log ++ [(Tag.imageManifest, "blobs/" ++ img.digest.string)]⟩ also with
          | mk s4 r4 =>
            rw [ha] at hp
            have hp4 : p ∈ s4.store := by
              cases r4 <;> exact hp
            have hq4 : p ∈ (writeAliasesGo fail Tag.imageAlias img.digest img.rawManifest
                img.mediaType
                ⟨s2.store.set ("blobs/" ++ img.digest.string)
                  ⟨img.rawManifest, img.mediaType, img.mediaType, img.digest.string⟩,
                  s2.log ++ [(Tag.imageManifest, "blobs/" ++ img.digest.string)]⟩ also).1.store := by
              rw [ha]
              exact hp4
            rcases writeAliasesGo_store_mem fail Tag.imageAlias img.digest img.rawManifest
                img.mediaType also _ p hq4 with h1 | ⟨a, haa, rfl⟩
            · rcases Store.mem_set _ _ _ _ h1 with h2 | h2
              · exact hs2 p h2
              · exact Or.inr (by
                  rw [h2]
                  simp only [imageWrites]
                  exact List.mem_cons_of_mem _ (List.mem_append_right _ (List.mem_cons_self _ _)))
            · exact Or.inr (by
                simp only [imageWrites]
                exact List.mem_cons_of_mem _ (List.mem_append_right _
                  (List.mem_cons_of_mem _ (List.mem_map_of_mem _ haa))))

theorem issuedImageLog_no_index_tags (fail : String → Option Err) (img : Image)
    (also : List String) (p : Tag × String) (hp : p ∈ issuedImageLog fail img also) :
    p.1 ≠ Tag.indexManifest ∧ p.1 ≠ Tag.indexAlias := by
  cases hc : fail (configKey img) with
  | some e =>
    simp only [issuedImageLog, hc, List.mem_singleton] at hp
    rw [hp]
    exact ⟨Tag.noConfusion, Tag.noConfusion⟩
  | none =>
    cases hh : (img.layers.filterMap (fun l => fail (layerKey l))).head? with
    | some e =>
      simp only [issuedImageLog, hc, hh, List.append_nil, List.mem_cons, List.mem_map] at hp
      rcases hp with rfl | ⟨l, _, rfl⟩
      · exact ⟨Tag.noConfusion, Tag.noConfusion⟩
      · exact ⟨Tag.noConfusion, Tag.noConfusion⟩
    | none =>
      cases hm : fail (manifestKey img) with
      | some e =>
        simp only [issuedImageLog, hc, hh, hm, List.mem_cons, List.mem_append,
          List.mem_map] at hp
        rcases hp with rfl | (⟨l, _, rfl⟩ | (rfl | h))
        · exact ⟨Tag.noConfusion, Tag.noConfusion⟩
        · exact ⟨Tag.noConfusion, Tag.noConfusion⟩
        · exact ⟨Tag.noConfusion, Tag.noConfusion⟩
        · simp at h
      | none =>
        simp only [issuedImageLog, hc, hh, hm, List.mem_cons, List.mem_append,
          List.mem_map] at hp
        rcases hp with rfl | (⟨l, _, rfl⟩ | (rfl | ⟨a, _, rfl⟩))
        · exact ⟨Tag.noConfusion, Tag.noConfusion⟩
        · exact ⟨Tag.noConfusion, Tag.noConfusion⟩
        · exact ⟨Tag.noConfusion, Tag.noConfusion⟩
        · exact ⟨Tag.noConfusion, Tag.noConfusion⟩

theorem imageManifest_mem_issuedImageLog (fail : String → Option Err) (img : Image)
    (also : List String) (k : String) :
    (Tag.imageManifest, k) ∈ issuedImageLog fail img also ↔
      fail (configKey img) = none ∧ (∀ l ∈ img.layers, fail (layerKey l) = none) ∧
        k = manifestKey img := by
  cases hc : fail (configKey img) with
  | some e =>
    simp [issuedImageLog, hc]
  | none =>
    cases hh : (img.layers.filterMap (fun l => fail (layerKey l))).head? with
    | some e =>
      have hnot : ¬ ∀ l ∈ img.layers, fail (layerKey l) = none := by
        intro hall
        rw [(head?_filterMap_none _ _).mpr hall] at hh
        exact Option.noConfusion hh
      simp [issuedImageLog, hc, hh, hnot]
    | none =>
      have hall : ∀ l ∈ img.layers, fail (layerKey l) = none :=
        (head?_filterMap_none _ _).mp hh
      cases hm : fail (manifestKey img) with
      | some e =>
        simp [issuedImageLog, hc, hh, hm, eq_comm]
        intro _
        exact hall
      | none =>
        simp [issuedImageLog, hc, hh, hm, eq_comm]
        intro _
        exact hall

theorem writeImagesGo_log (fail : String → Option Err) (imgs : List Image) (s : WState) :
    (writeImagesGo fail s imgs).1.log =
      s.log ++ (imgs.map (fun i => issuedImageLog fail i [])).flatten := by
  induction imgs generalizing s with
  | nil => simp [writeImagesGo]
  | cons img rest ih =>
    cases hwi : WriteImage fail s img [] with
    | mk s2 r =>
      have hlog : s2.log = s.log ++ issuedImageLog fail img [] := by
        have h2 := WriteImage_log_eq fail s img []
        rw [hwi] at h2
        exact h2
      cases r with
      | ok u =>
        simp only [writeImagesGo, hwi, ih, hlog]
        simp
      | error e =>
        simp only [writeImagesGo, hwi, ih, hlog]
        simp

theorem writeImagesGo_none_iff (fail : String → Option Err) (imgs : List Image)
    (s : WState) :
    (writeImagesGo fail s imgs).2 = none ↔ ∀ img ∈ imgs, imageWriteOk fail img [] := by
  induction imgs generalizing s with
  | nil => simp [writeImagesGo]
  | cons img rest ih =>
    cases hwi : WriteImage fail s img [] with
    | mk s2 r =>
      have hok : r = Except.ok () ↔ imageWriteOk fail img [] := by
        have h2 := WriteImage_ok_iff fail s img []
        rw [hwi] at h2
        exact h2
      cases r with
      | ok u =>
        cases u
        simp only [writeImagesGo, hwi, ih]
        simp only [List.forall_mem_cons]
        constructor
        · intro hrest
          exact ⟨hok.mp rfl, hrest⟩
        · intro h
          exact h.2
      | error e =>
        have hnot : ¬ imageWriteOk fail img [] := by
          intro h
          have := hok.mpr h
          exact Except.noConfusion this
        simp only [writeImagesGo, hwi]
        simp [List.forall_mem_cons, hnot]

theorem writeImagesGo_store_mem (fail : String → Option Err) (imgs : List Image)
    (s : WState) (p : String × StoredObject)
    (hp : p ∈ (writeImagesGo fail s imgs).1.store) :
    p ∈ s.store ∨ ∃ img ∈ imgs, p ∈ imageWrites img [] := by
  induction imgs generalizing s with
  | nil => exact Or.inl hp
  | cons img rest ih =>
    cases hwi : WriteImage fail s img [] with
    | mk s2 r =>
      have hmem : ∀ q, q ∈ s2.store → q ∈ s.store ∨ q ∈ imageWrites img [] := by
        intro q hq
        have hq2 : q ∈ (WriteImage fail s img []).1.store := by
          rw [hwi]
          exact hq
        exact WriteImage_store_mem fail s img [] q hq2
      have hstep : p ∈ (writeImagesGo fail s2 rest).1.store →
          p ∈ s.store ∨ ∃ i ∈ img :: rest, p ∈ imageWrites i [] := by
        intro hq
        rcases ih s2 hq with h1 | ⟨i, hi, hmi⟩
        · rcases hmem p h1 with h2 | h2
          · exact Or.inl h2
          · exact Or.inr ⟨img, List.mem_cons_self _ _, h2⟩
        · exact Or.inr ⟨i, List.mem_cons_of_mem _ hi, hmi⟩
      cases r with
      | ok u =>
        simp only [writeImagesGo, hwi] at hp
        exact hstep hp
      | error e =>
        simp only [writeImagesGo, hwi] at hp
        exact hstep hp

theorem ServeIndex_cases (cfg : Config) (fail : String → Option Err) (s : WState)
    (w : Response) (m : Method) (idx : ImageIndex) (also : List String) :
    (∃ st e, ServeIndex cfg fail s w m idx also = (st, w, Except.error e)) ∨
      ∃ st, ServeIndex cfg fail s w m idx also =
        (st,
         match m with
         | Method.head => { w with headers := setHeadHeaders w.headers idx.digest idx.mediaType idx.size }
         | Method.get => Blob cfg w idx.digest.string,
         Except.ok ()) := by
  cases hwi : writeImagesGo fail s idx.images with
  | mk s1 r1 =>
    cases r1 with
    | some e =>
      exact Or.inl ⟨s1, e, by simp only [ServeIndex, hwi]⟩
    | none =>
      cases hm : fail ("blobs/" ++ idx.digest.string) with
      | some e =>
        refine Or.inl ⟨⟨s1.store, s1.log ++ [(Tag.indexManifest, "blobs/" ++ idx.digest.string)]⟩, e, ?_⟩
        simp only [ServeIndex, hwi, writeBlob_some fail Tag.indexManifest s1 idx.digest.string
          idx.digest idx.rawManifest idx.mediaType e hm]
      | none =>
        cases ha : writeAliasesGo fail Tag.indexAlias idx.digest idx.rawManifest idx.mediaType
            ⟨s1.store.set ("blobs/" ++ idx.digest.string)
              ⟨idx.rawManifest, idx.mediaType, idx.mediaType, idx.digest.string⟩,
              s1.log ++ [(Tag.indexManifest, "blobs/" ++ idx.digest.string)]⟩ also with
        | mk s3 r3 =>
          cases r3 with
          | some e =>
            refine Or.inl ⟨s3, e, ?_⟩
            simp only [ServeIndex, hwi, writeBlob_none fail Tag.indexManifest s1 idx.digest.string
              idx.digest idx.rawManifest idx.mediaType hm, ha]
          | none =>
            refine Or.inr ⟨s3, ?_⟩
            cases m with
            | head =>
              simp only [ServeIndex, hwi, writeBlob_none fail Tag.indexManifest s1
                idx.digest.string idx.digest idx.rawManifest idx.mediaType hm, ha]
            | get =>
              simp only [ServeIndex, hwi, writeBlob_none fail Tag.indexManifest s1
                idx.digest.string idx.digest idx.rawManifest idx.mediaType hm, ha]

theorem ServeManifest_cases (cfg : Config) (fail : String → Option Err) (s : WState)
    (w : Response) (m : Method) (img : Image) (also : List String) :
    (∃ st e, ServeManifest cfg fail s w m img also = (st, w, Except.error e)) ∨
      ∃ st, ServeManifest cfg fail s w m img also =
        (st,
         match m with
         | Method.head => { w with headers := setHeadHeaders w.headers img.digest img.mediaType img.size }
         | Method.get => Blob cfg w img.digest.string,
         Except.ok ()) := by
  cases hwi : WriteImage fail s img also with
  | mk s1 r1 =>
    cases r1 with
    | error e =>
      exact Or.inl ⟨s1, e, by simp only [ServeManifest, hwi]⟩
    | ok u =>
      cases u
      refine Or.inr ⟨s1, ?_⟩
      cases m with
      | head => simp only [ServeManifest, hwi]
      | get => simp only [ServeManifest, hwi]

theorem flatten_no_index_tags (fail : String → Option Err) (imgs : List Image)
    (t : Tag) (k : String) (ht : t = Tag.indexManifest ∨ t = Tag.indexAlias)
    (hp : (t, k) ∈ (imgs.map (fun i => issuedImageLog fail i [])).flatten) : False := by
  rcases List.mem_flatten.mp hp with ⟨L, hL, hpL⟩
  rcases List.mem_map.mp hL with ⟨i, _, rfl⟩
  have h2 := issuedImageLog_no_index_tags fail i [] (t, k) hpL
  rcases ht with rfl | rfl
  · exact h2.1 rfl
  · exact h2.2 rfl

theorem ServeIndex_indexManifest_mem (cfg : Config) (fail : String → Option Err)
    (s : WState) (w : Response) (m : Method) (idx : ImageIndex) (also : List String)
    (k : String)
    (hp : (Tag.indexManifest, k) ∈ (ServeIndex cfg fail s w m idx also).1.log) :
    (Tag.indexManifest, k) ∈ s.log ∨
      ((∀ img ∈ idx.images, imageWriteOk fail img []) ∧ k = indexKey idx) := by
  cases hwi : writeImagesGo fail s idx.images with
  | mk s1 r1 =>
    have hlog1 : s1.log = s.log ++ (idx.images.map (fun i => issuedImageLog fail i [])).flatten := by
      have h2 := writeImagesGo_log fail idx.images s
      rw [hwi] at h2
      exact h2
    have hmem1 : ∀ k', (Tag.indexManifest, k') ∈ s1.log → (Tag.indexManifest, k') ∈ s.log := by
      intro k' hk'
      rw [hlog1] at hk'
      rcases List.mem_append.mp hk' with h1 | h1
      · exact h1
      · exact absurd h1 (fun h => flatten_no_index_tags fail idx.images Tag.indexManifest k'
          (Or.inl rfl) h)
    cases r1 with
    | some e =>
      simp only [ServeIndex, hwi] at hp
      exact Or.inl (hmem1 k hp)
    | none =>
      have hall : ∀ img ∈ idx.images, imageWriteOk fail img [] := by
        have h2 := (writeImagesGo_none_iff fail idx.images s).mp (by rw [hwi])
        exact h2
      cases hm : fail ("blobs/" ++ idx.digest.string) with
      | some e =>
        simp only [ServeIndex, hwi, writeBlob_some fail Tag.indexManifest s1 idx.digest.string
          idx.digest idx.rawManifest idx.mediaType e hm] at hp
        rcases List.mem_append.mp hp with h1 | h1
        · exact Or.inl (hmem1 k h1)
        · rcases List.mem_singleton.mp h1 with h2
          exact Or.inr ⟨hall, congrArg Prod.snd h2⟩
      | none =>
        cases ha : writeAliasesGo fail Tag.indexAlias idx.digest idx.rawManifest idx.mediaType
            ⟨s1.store.set ("blobs/" ++ idx.digest.string)
              ⟨idx.rawManifest, idx.mediaType, idx.mediaType, idx.digest.string⟩,
              s1.log ++ [(Tag.indexManifest, "blobs/" ++ idx.digest.string)]⟩ also with
        | mk s3 r3 =>
          have hlog3 : s3.log =
              (s1.log ++ [(Tag.indexManifest, "blobs/" ++ idx.digest.string)]) ++
                also.map (fun a => (Tag.indexAlias, aliasKey a)) := by
            have h3 := writeAliasesGo_log fail Tag.indexAlias idx.digest idx.rawManifest
              idx.mediaType also
              ⟨s1.store.set ("blobs/" ++ idx.digest.string)
                ⟨idx.rawManifest, idx.mediaType, idx.mediaType, idx.digest.string⟩,
                s1.log ++ [(Tag.indexManifest, "blobs/" ++ idx.digest.string)]⟩
            rw [ha] at h3
            exact h3
          have hfin : (Tag.indexManifest, k) ∈ s3.log →
              (Tag.indexManifest, k) ∈ s.log ∨
                ((∀ img ∈ idx.images, imageWriteOk fail img []) ∧ k = indexKey idx) := by
            intro hk
            rw [hlog3] at hk
            rcases List.mem_append.mp hk with h1 | h1
            · rcases List.mem_append.mp h1 with h2 | h2
              · exact Or.inl (hmem1 k h2)
              · rcases List.mem_singleton.mp h2 with h3
                exact Or.inr ⟨hall, congrArg Prod.snd h3⟩
            · rcases List.mem_map.mp h1 with ⟨a, _, h2⟩
              exact absurd (congrArg Prod.fst h2) (by simp)
          cases r3 with
          | some e =>
            simp only [ServeIndex, hwi, writeBlob_none fail Tag.indexManifest s1
              idx.digest.string idx.digest idx.rawManifest idx.mediaType hm, ha] at hp
            exact hfin hp
          | none =>
            cases m with
            | head =>
              simp only [ServeIndex, hwi, writeBlob_none fail Tag.indexManifest s1
                idx.digest.string idx.digest idx.rawManifest idx.mediaType hm, ha] at hp
              exact hfin hp
            | get =>
              simp only [ServeIndex, hwi, writeBlob_none fail Tag.indexManifest s1
                idx.digest.string idx.digest idx.rawManifest idx.mediaType hm, ha] at hp
              exact hfin hp

theorem applyWrites_filter (ws : List (String × StoredObject)) (st : Store) :
    applyWrites st ws =
      st.filter (fun p => !((ws.map Prod.fst).contains p.1)) ++ applyWrites [] ws := by
  induction ws generalizing st with
  | nil => simp [applyWrites]
  | cons kv rest ih =>
    have hcons : applyWrites st (kv :: rest) = applyWrites (st.set kv.1 kv.2) rest := rfl
    have hcons0 : applyWrites ([] : Store) (kv :: rest) =
        applyWrites (Store.set [] kv.1 kv.2) rest := rfl
    have hset0 : Store.set [] kv.1 kv.2 = [(kv.1, kv.2)] := by simp [Store.set]
    rw [hcons, ih (st.set kv.1 kv.2), hcons0, hset0, ih [(kv.1, kv.2)]]
    rw [Store.set, List.filter_append, List.append_assoc]
    congr 1
    rw [List.filter_filter]
    apply List.filter_congr
    intro p _
    simp only [List.map_cons, List.contains_cons, Bool.not_or]
    rw [Bool.and_comm]
    rfl

theorem mem_applyWrites (ws : List (String × StoredObject)) (st : Store)
    (p : String × StoredObject) (hp : p ∈ applyWrites st ws) :
    p ∈ st ∨ ((ws.map Prod.fst).contains p.1) = true := by
  induction ws generalizing st with
  | nil => exact Or.inl hp
  | cons kv rest ih =>
    have hcons : applyWrites st (kv :: rest) = applyWrites (st.set kv.1 kv.2) rest := rfl
    rw [hcons] at hp
    rcases ih (st.set kv.1 kv.2) hp with h1 | h1
    · rcases Store.mem_set _ _ _ _ h1 with h2 | h2
      · exact Or.inl h2
      · refine Or.inr ?_
        simp only [List.map_cons, List.contains_cons]
        have : p.1 == kv.1 := by rw [h2]; exact beq_self_eq_true kv.1
        simp [this]
    · refine Or.inr ?_
      simp only [List.map_cons, List.contains_cons, h1]
      simp

theorem applyWrites_idem (st : Store) (ws : List (String × StoredObject)) :
    applyWrites (applyWrites st ws) ws = applyWrites st ws := by
  rw [applyWrites_filter ws st, applyWrites_filter ws
    (st.filter (fun p => !((ws.map Prod.fst).contains p.1)) ++ applyWrites [] ws)]
  rw [List.filter_append]
  have h1 : (st.filter (fun p => !((ws.map Prod.fst).contains p.1))).filter
      (fun p => !((ws.map Prod.fst).contains p.1)) =
      st.filter (fun p => !((ws.map Prod.fst).contains p.1)) := by
    rw [List.filter_filter]
    apply List.filter_congr
    intro p _
    rw [Bool.and_self]
  have h2 : (applyWrites ([] : Store) ws).filter
      (fun p => !((ws.map Prod.fst).contains p.1)) = [] := by
    rw [List.filter_eq_nil_iff]
    intro p hp
    rcases mem_applyWrites ws [] p hp with h3 | h3
    · exact absurd h3 (List.not_mem_nil p)
    · simp only [h3, Bool.not_true]
      exact Bool.false_ne_true
  rw [h1, h2, List.append_nil]

theorem applyWrites_of_nodup (ws : List (String × StoredObject)) (st : Store)
    (hdis : ∀ p ∈ st, ((ws.map Prod.fst).contains p.1) = false)
    (hnd : (ws.map Prod.fst).Nodup) :
    applyWrites st ws = st ++ ws := by
  induction ws generalizing st with
  | nil => simp [applyWrites]
  | cons kv rest ih =>
    have hcons : applyWrites st (kv :: rest) = applyWrites (st.set kv.1 kv.2) rest := rfl
    have hset : st.set kv.1 kv.2 = st ++ [(kv.1, kv.2)] := by
      rw [Store.set]
      congr 1
      rw [List.filter_eq_self]
      intro p hp
      have h3 := hdis p hp
      simp only [List.map_cons, List.contains_cons, Bool.or_eq_false_iff] at h3
      simp [bne, h3.1]
    rw [hcons, hset, ih (st ++ [(kv.1, kv.2)])]
    · simp
    · intro p hp
      rcases List.mem_append.mp hp with h1 | h1
      · have h3 := hdis p h1
        simp only [List.map_cons, List.contains_cons, Bool.or_eq_false_iff] at h3
        exact h3.2
      · rcases List.mem_singleton.mp h1 with rfl
        simp only [List.map_cons, List.nodup_cons] at hnd
        have h4 : ¬ kv.1 ∈ rest.map Prod.fst := hnd.1
        rw [← List.elem_iff] at h4
        simp only [Bool.not_eq_true] at h4
        exact h4
    · simp only [List.map_cons, List.nodup_cons] at hnd
      exact hnd.2

theorem imageWrites_good (img : Image) (also : List String)
    (p : String × StoredObject) (hp : p ∈ imageWrites img also) : goodEntry also p := by
  simp only [imageWrites, List.mem_cons, List.mem_append, List.mem_map] at hp
  rcases hp with rfl | (⟨l, _, rfl⟩ | (rfl | ⟨a, ha, rfl⟩))
  · exact ⟨rfl, Or.inl rfl⟩
  · exact ⟨rfl, Or.inl rfl⟩
  · exact ⟨rfl, Or.inl rfl⟩
  · exact ⟨rfl, Or.inr ⟨a, ha, rfl⟩⟩

theorem goodEntry_mono (A B : List String) (hsub : ∀ a ∈ A, a ∈ B)
    (p : String × StoredObject) (h : goodEntry A p) : goodEntry B p := by
  rcases h with ⟨h1, h2 | ⟨a, ha, h3⟩⟩
  · exact ⟨h1, Or.inl h2⟩
  · exact ⟨h1, Or.inr ⟨a, hsub a ha, h3⟩⟩

theorem ServeIndex_store_mem (cfg : Config) (fail : String → Option Err) (s : WState)
    (w : Response) (m : Method) (idx : ImageIndex) (also : List String)
    (p : String × StoredObject)
    (hp : p ∈ (ServeIndex cfg fail s w m idx also).1.store) :
    p ∈ s.store ∨ (∃ img ∈ idx.images, p ∈ imageWrites img []) ∨
      p = indexManifestPair idx ∨
      ∃ a ∈ also, p = aliasPair idx.digest idx.rawManifest idx.mediaType a := by
  cases hwi : writeImagesGo fail s idx.images with
  | mk s1 r1 =>
    have hmem1 : ∀ q, q ∈ s1.store →
        q ∈ s.store ∨ ∃ img ∈ idx.images, q ∈ imageWrites img [] := by
      intro q hq
      have hq2 : q ∈ (writeImagesGo fail s idx.images).1.store := by
        rw [hwi]
        exact hq
      exact writeImagesGo_store_mem fail idx.images s q hq2
    cases r1 with
    | some e =>
      simp only [ServeIndex, hwi] at hp
      rcases hmem1 p hp with h1 | h1
      · exact Or.inl h1
      · exact Or.inr (Or.inl h1)
    | none =>
      cases hm : fail ("blobs/" ++ idx.digest.string) with
      | some e =>
        simp only [ServeIndex, hwi, writeBlob_some fail Tag.indexManifest s1 idx.digest.string
          idx.digest idx.rawManifest idx.mediaType e hm] at hp
        rcases hmem1 p hp with h1 | h1
        · exact Or.inl h1
        · exact Or.inr (Or.inl h1)
      | none =>
        cases ha : writeAliasesGo fail Tag.indexAlias idx.digest idx.rawManifest idx.mediaType
            ⟨s1.store.set ("blobs/" ++ idx.digest.string)
              ⟨idx.rawManifest, idx.mediaType, idx.mediaType, idx.digest.string⟩,
              s1.log ++ [(Tag.indexManifest, "blobs/" ++ idx.digest.string)]⟩ also with
        | mk s3 r3 =>
          have hp3 : p ∈ s3.store := by
            cases r3 with
            | some e =>
              simp only [ServeIndex, hwi, writeBlob_none fail Tag.indexManifest s1
                idx.digest.string idx.digest idx.rawManifest idx.mediaType hm, ha] at hp
              exact hp
            | none =>
              cases m with
              | head =>
                simp only [ServeIndex, hwi, writeBlob_none fail Tag.indexManifest s1
                  idx.digest.string idx.digest idx.rawManifest idx.mediaType hm, ha] at hp
                exact hp
              | get =>
                simp only [ServeIndex, hwi, writeBlob_none fail Tag.indexManifest s1
                  idx.digest.string idx.digest idx.rawManifest idx.mediaType hm, ha] at hp
                exact hp
          have hq3 : p ∈ (writeAliasesGo fail Tag.indexAlias idx.digest idx.rawManifest
              idx.mediaType
              ⟨s1.store.set ("blobs/" ++ idx.digest.string)
                ⟨idx.rawManifest, idx.mediaType, idx.mediaType, idx.digest.string⟩,
                s1.log ++ [(Tag.indexManifest, "blobs/" ++ idx.digest.string)]⟩ also).1.store := by
            rw [ha]
            exact hp3
          rcases writeAliasesGo_store_mem fail Tag.indexAlias idx.digest idx.rawManifest
              idx.mediaType also _ p hq3 with h1 | ⟨a, haa, rfl⟩
          · rcases Store.mem_set _ _ _ _ h1 with h2 | h2
            · rcases hmem1 p h2 with h3 | h3
              · exact Or.inl h3
              · exact Or.inr (Or.inl h3)
            · exact Or.inr (Or.inr (Or.inl (by rw [h2]; rfl)))
          · exact Or.inr (Or.inr (Or.inr ⟨a, haa, rfl⟩))

theorem WriteImage_err_layers (fail : String → Option Err) (s : WState) (img : Image)
    (also : List String) (e : Err) (hc : fail (configKey img) = none)
    (he : (img.layers.filterMap (fun l => fail (layerKey l))).head? = some e) :
    (WriteImage fail s img also).2 = Except.error e := by
  simp only [WriteImage, writeBlob_none fail Tag.config s img.configName.string
    img.configName img.rawConfigFile "application/json" hc]
  cases hw : writeLayersGo fail
      ⟨s.store.set ("blobs/" ++ img.configName.string)
        ⟨img.rawConfigFile, "application/json", "application/json", img.configName.string⟩,
        s.log ++ [(Tag.config, "blobs/" ++ img.configName.string)]⟩ img.layers with
  | mk s2 r =>
    have herr2 : r = some e := by
      have h2 := writeLayersGo_err fail img.layers
        ⟨s.store.set ("blobs/" ++ img.configName.string)
          ⟨img.rawConfigFile, "application/json", "application/json", img.configName.string⟩,
          s.log ++ [(Tag.config, "blobs/" ++ img.configName.string)]⟩
      rw [hw, he] at h2
      exact h2
    rw [herr2]

theorem layer_mem_issuedImageLog (fail : String → Option Err) (img : Image)
    (also : List String) (l : Layer) (hl : l ∈ img.layers)
    (hc : fail (configKey img) = none) :
    (Tag.layer, layerKey l) ∈ issuedImageLog fail img also := by
  simp only [issuedImageLog, hc]
  exact List.mem_cons_of_mem _ (List.mem_append_left _
    (List.mem_map_of_mem (fun l => (Tag.layer, layerKey l)) hl))

theorem setHeadHeaders_empty (d : Hash) (mt : String) (n : Nat) :
    setHeadHeaders [] d mt n =
      [(metaDockerContentDigest, d.string), (metaContentType, mt),
        (metaContentLength, toString n)] := by
  simp [setHeadHeaders, setHeader, metaDockerContentDigest, metaContentType, metaContentLength]

/-- C1: for every image, if the config write succeeds and any concurrently
launched layer-blob write fails with a store error (per the failure plan),
then `WriteImage` returns an error and not success, regardless of whether
the sibling layer writes succeeded; every launched layer write runs to
completion (its `PutObject` call appears in the log), and the reported
error is the first encountered one in launch order. -/
theorem claimC1_first_error (fail : String → Option Err) (st : Store)
    (log : List (Tag × String)) (img : Image) (also : List String)
    (hc : fail (configKey img) = none)
    (hfail : ∃ l ∈ img.layers, fail (layerKey l) ≠ none) :
    (∃ e, (img.layers.filterMap (fun l => fail (layerKey l))).head? = some e ∧
        (WriteImage fail ⟨st, log⟩ img also).2 = Except.error e) ∧
      ∀ l ∈ img.layers,
        (Tag.layer, layerKey l) ∈ (WriteImage fail ⟨st, log⟩ img also).1.log := by
  constructor
  · have hne : (img.layers.filterMap (fun l => fail (layerKey l))).head? ≠ none := by
      intro h
      rcases hfail with ⟨l, hl, hlne⟩
      exact hlne ((head?_filterMap_none _ _).mp h l hl)
    rcases Option.ne_none_iff_exists'.mp hne with ⟨e, he⟩
    exact ⟨e, he, WriteImage_err_layers fail ⟨st, log⟩ img also e hc he⟩
  · intro l hl
    rw [WriteImage_log_eq]
    exact List.mem_append_right _ (layer_mem_issuedImageLog fail img also l hl hc)

/-- Witness for C1 at a concrete input: one-layer image `imgA` with a
failure plan that fails exactly that layer's key. -/
theorem claimC1_witness :
    (∃ e, (imgA.layers.filterMap (fun l => failLayer2 (layerKey l))).head? = some e ∧
        (WriteImage failLayer2 ⟨[], []⟩ imgA []).2 = Except.error e) ∧
      ∀ l ∈ imgA.layers,
        (Tag.layer, layerKey l) ∈ (WriteImage failLayer2 ⟨[], []⟩ imgA []).1.log :=
  claimC1_first_error failLayer2 [] [] imgA [] (by decide) ⟨⟨[2], "lA"⟩, by decide⟩

/-- C2: within one `WriteImage` call, the manifest blob write is issued
only if the config write and every layer write succeeded; within one
`ServeIndex` call, the index-manifest blob write is issued only if every
referenced image's write completed successfully.  Contrapositively, if any
referent write fails, the manifest (index-manifest) write does not
happen. -/
theorem claimC2_manifest_after_referents :
    (∀ (fail : String → Option Err) (st : Store) (img : Image) (also : List String)
        (k : String),
        (Tag.imageManifest, k) ∈ (WriteImage fail ⟨st, []⟩ img also).1.log →
          fail (configKey img) = none ∧ ∀ l ∈ img.layers, fail (layerKey l) = none) ∧
      ∀ (cfg : Config) (fail : String → Option Err) (st : Store) (w : Response)
        (m : Method) (idx : ImageIndex) (also : List String) (k : String),
        (Tag.indexManifest, k) ∈ (ServeIndex cfg fail ⟨st, []⟩ w m idx also).1.log →
          ∀ img ∈ idx.images, imageWriteOk fail img [] := by
  constructor
  · intro fail st img also k hk
    rw [WriteImage_log_eq] at hk
    rcases List.mem_append.mp hk with h1 | h1
    · exact absurd h1 (List.not_mem_nil _)
    · have h2 := (imageManifest_mem_issuedImageLog fail img also k).mp h1
      exact ⟨h2.1, h2.2.1⟩
  · intro cfg fail st w m idx also k hk
    rcases ServeIndex_indexManifest_mem cfg fail ⟨st, []⟩ w m idx also k hk with h1 | h1
    · exact absurd h1 (List.not_mem_nil _)
    · exact h1.1

/-- Witness for C2 at concrete inputs whose manifest writes are issued. -/
theorem claimC2_witness :
    (noFail (configKey imgA) = none ∧ ∀ l ∈ imgA.layers, noFail (layerKey l) = none) ∧
      ∀ img ∈ idx0.images, imageWriteOk noFail img [] :=
  ⟨claimC2_manifest_after_referents.1 noFail [] imgA [] (manifestKey imgA) (by decide),
   claimC2_manifest_after_referents.2 cfg0 noFail [] Response.empty Method.get idx0
     ["latest"] (indexKey idx0) (by decide)⟩

/-- C3: for every image (and index) whose serve call succeeds, a HEAD
request returns a response carrying exactly the three headers
`Docker-Content-Digest` = digest, `Content-Type` = media type,
`Content-Length` = size, and no redirect (the code writes no body), while
a non-HEAD request returns a redirect whose target is
`resolveLocation(digest)`. -/
theorem claimC3_head_get (cfg : Config) (fail : String → Option Err) (s : WState)
    (img : Image) (idx : ImageIndex) (also : List String) :
    ((ServeManifest cfg fail s Response.empty Method.head img also).2.2 = Except.ok () →
      (ServeManifest cfg fail s Response.empty Method.head img also).2.1 =
        ⟨[(metaDockerContentDigest, img.digest.string), (metaContentType, img.mediaType),
          (metaContentLength, toString img.size)], none⟩) ∧
    ((ServeManifest cfg fail s Response.empty Method.get img also).2.2 = Except.ok () →
      (ServeManifest cfg fail s Response.empty Method.get img also).2.1 =
        ⟨[], some (303, resolveLocation cfg img.digest.string)⟩) ∧
    ((ServeIndex cfg fail s Response.empty Method.head idx also).2.2 = Except.ok () →
      (ServeIndex cfg fail s Response.empty Method.head idx also).2.1 =
        ⟨[(metaDockerContentDigest, idx.digest.string), (metaContentType, idx.mediaType),
          (metaContentLength, toString idx.size)], none⟩) ∧
    ((ServeIndex cfg fail s Response.empty Method.get idx also).2.2 = Except.ok () →
      (ServeIndex cfg fail s Response.empty Method.get idx also).2.1 =
        ⟨[], some (303, resolveLocation cfg idx.digest.string)⟩) := by
  refine ⟨?_, ?_, ?_, ?_⟩
  · intro hok
    rcases ServeManifest_cases cfg fail s Response.empty Method.head img also with
      ⟨st, e, heq⟩ | ⟨st, heq⟩
    · rw [heq] at hok
      exact absurd hok (by simp)
    · rw [heq]
      show { Response.empty with
          headers := setHeadHeaders Response.empty.headers img.digest img.mediaType img.size } = _
      rw [show Response.empty.headers = [] from rfl, setHeadHeaders_empty]
      rfl
  · intro hok
    rcases ServeManifest_cases cfg fail s Response.empty Method.get img also with
      ⟨st, e, heq⟩ | ⟨st, heq⟩
    · rw [heq] at hok
      exact absurd hok (by simp)
    · rw [heq]
      rfl
  · intro hok
    rcases ServeIndex_cases cfg fail s Response.empty Method.head idx also with
      ⟨st, e, heq⟩ | ⟨st, heq⟩
    · rw [heq] at hok
      exact absurd hok (by simp)
    · rw [heq]
      show { Response.empty with
          headers := setHeadHeaders Response.empty.headers idx.digest idx.mediaType idx.size } = _
      rw [show Response.empty.headers = [] from rfl, setHeadHeaders_empty]
      rfl
  · intro hok
    rcases ServeIndex_cases cfg fail s Response.empty Method.get idx also with
      ⟨st, e, heq⟩ | ⟨st, heq⟩
    · rw [heq] at hok
      exact absurd hok (by simp)
    · rw [heq]
      rfl

/-- Witness for C3 at concrete published contents `imgA` and `idx0`. -/
theorem claimC3_witness :
    ((ServeManifest cfg0 noFail ⟨[], []⟩ Response.empty Method.head imgA []).2.1 =
        ⟨[(metaDockerContentDigest, imgA.digest.string), (metaContentType, imgA.mediaType),
          (metaContentLength, toString imgA.size)], none⟩) ∧
      ((ServeManifest cfg0 noFail ⟨[], []⟩ Response.empty Method.get imgA []).2.1 =
        ⟨[], some (303, resolveLocation cfg0 imgA.digest.string)⟩) ∧
      ((ServeIndex cfg0 noFail ⟨[], []⟩ Response.empty Method.head idx0 []).2.1 =
        ⟨[(metaDockerContentDigest, idx0.digest.string), (metaContentType, idx0.mediaType),
          (metaContentLength, toString idx0.size)], none⟩) ∧
      ((ServeIndex cfg0 noFail ⟨[], []⟩ Response.empty Method.get idx0 []).2.1 =
        ⟨[], some (303, resolveLocation cfg0 idx0.digest.string)⟩) :=
  ⟨(claimC3_head_get cfg0 noFail ⟨[], []⟩ imgA idx0 []).1 (by decide),
   (claimC3_head_get cfg0 noFail ⟨[], []⟩ imgA idx0 []).2.1 (by decide),
   (claimC3_head_get cfg0 noFail ⟨[], []⟩ imgA idx0 []).2.2.1 (by decide),
   (claimC3_head_get cfg0 noFail ⟨[], []⟩ imgA idx0 []).2.2.2 (by decide)⟩

/-- C5: for every `ServeManifest` or `ServeIndex` call, if the call fails,
the response writer is untouched — no redirect and no introspection
headers are emitted on the failure path. -/
theorem claimC5_no_partial_response :
    (∀ (cfg : Config) (fail : String → Option Err) (s : WState) (w : Response)
        (m : Method) (img : Image) (also : List String) (e : Err),
        (ServeManifest cfg fail s w m img also).2.2 = Except.error e →
          (ServeManifest cfg fail s w m img also).2.1 = w) ∧
      ∀ (cfg : Config) (fail : String → Option Err) (s : WState) (w : Response)
        (m : Method) (idx : ImageIndex) (also : List String) (e : Err),
        (ServeIndex cfg fail s w m idx also).2.2 = Except.error e →
          (ServeIndex cfg fail s w m idx also).2.1 = w := by
  constructor
  · intro cfg fail s w m img also e herr
    rcases ServeManifest_cases cfg fail s w m img also with ⟨st, e2, heq⟩ | ⟨st, heq⟩
    · rw [heq]
    · rw [heq] at herr
      exact absurd herr (by simp)
  · intro cfg fail s w m idx also e herr
    rcases ServeIndex_cases cfg fail s w m idx also with ⟨st, e2, heq⟩ | ⟨st, heq⟩
    · rw [heq]
    · rw [heq] at herr
      exact absurd herr (by simp)

/-- Witness for C5: a failure plan that fails the config write of `imgA`
makes both serve calls fail without touching the response. -/
theorem claimC5_witness :
    ((ServeManifest cfg0 failConfigA ⟨[], []⟩ Response.empty Method.get imgA []).2.1 =
        Response.empty) ∧
      (ServeIndex cfg0 failConfigA ⟨[], []⟩ Response.empty Method.get idx0 ["latest"]).2.1 =
        Response.empty :=
  ⟨claimC5_no_partial_response.1 cfg0 failConfigA ⟨[], []⟩ Response.empty Method.get imgA []
     (Err.store "down") (by decide),
   claimC5_no_partial_response.2 cfg0 failConfigA ⟨[], []⟩ Response.empty Method.get idx0
     ["latest"] (Err.store "down") (by decide)⟩

/-- C4 counterexample: for `imgDup`, an image with two identical layers
(N = 2) and no aliases, `WriteImage` from an empty store yields 3 store
entries, not N + 2 = 4: both layer writes target the same digest key. -/
theorem claimC4_counterexample :
    (WriteImage noFail ⟨[], []⟩ imgDup []).1.store.length = 3 ∧
      imgDup.layers.length + 2 = 4 ∧
      (WriteImage noFail ⟨[], []⟩ imgDup []).1.store.length ≠ imgDup.layers.length + 2 :=
  ⟨by decide, by decide, by decide⟩

/-- C4 (amended): for every image whose write keys (config digest, layer
digests, manifest digest, alias names) are pairwise distinct, `WriteImage`
from an empty store stores exactly the config blob, the N layer blobs and
the manifest blob, each under its digest, plus one entry per alias, and
nothing else — N + 2 + (number of aliases) entries. -/
theorem claimC4_amended (img : Image) (also : List String)
    (hnd : ((imageWrites img also).map Prod.fst).Nodup) :
    (WriteImage noFail ⟨[], []⟩ img also).1.store = imageWrites img also ∧
      (WriteImage noFail ⟨[], []⟩ img also).1.store.length =
        img.layers.length + 2 + also.length := by
  have h1 : (WriteImage noFail ⟨[], []⟩ img also).1.store = imageWrites img also := by
    rw [WriteImage_noFail]
    show applyWrites [] (imageWrites img also) = imageWrites img also
    rw [applyWrites_of_nodup (imageWrites img also) []
      (fun p hp => absurd hp (List.not_mem_nil p)) hnd]
    rfl
  refine ⟨h1, ?_⟩
  rw [h1]
  simp only [imageWrites, List.length_cons, List.length_append, List.length_map]
  omega

/-- Witness for C4 (amended) at the concrete image `imgA` with one
alias. -/
theorem claimC4_witness :
    (WriteImage noFail ⟨[], []⟩ imgA ["latest"]).1.store = imageWrites imgA ["latest"] ∧
      (WriteImage noFail ⟨[], []⟩ imgA ["latest"]).1.store.length =
        imgA.layers.length + 2 + ["latest"].length :=
  claimC4_amended imgA ["latest"] (by decide)

/-- C6: `WriteImage` and `ServeIndex` preserve the digest-consistency
invariant: in every store entry they create, the stored digest metadata
equals the digest computed from the stored bytes, and the storage key is
the digest-derived key — except aliases, which are keyed by the alias name
but carry the same digest metadata as the content they point to. -/
theorem claimC6_digest_consistency :
    (∀ (fail : String → Option Err) (st : Store) (log : List (Tag × String))
        (img : Image) (also : List String) (A : List String),
        (∀ p ∈ st, goodEntry A p) →
        ∀ p ∈ (WriteImage fail ⟨st, log⟩ img also).1.store, goodEntry (A ++ also) p) ∧
      ∀ (cfg : Config) (fail : String → Option Err) (st : Store) (log : List (Tag × String))
        (w : Response) (m : Method) (idx : ImageIndex) (also : List String) (A : List String),
        (∀ p ∈ st, goodEntry A p) →
        ∀ p ∈ (ServeIndex cfg fail ⟨st, log⟩ w m idx also).1.store, goodEntry (A ++ also) p := by
  constructor
  · intro fail st log img also A hst p hp
    rcases WriteImage_store_mem fail ⟨st, log⟩ img also p hp with h1 | h1
    · exact goodEntry_mono A (A ++ also) (fun a ha => List.mem_append_left _ ha) p (hst p h1)
    · exact goodEntry_mono also (A ++ also) (fun a ha => List.mem_append_right _ ha) p
        (imageWrites_good img also p h1)
  · intro cfg fail st log w m idx also A hst p hp
    rcases ServeIndex_store_mem cfg fail ⟨st, log⟩ w m idx also p hp with
      h1 | (⟨i, _, h1⟩ | (h1 | ⟨a, ha, h1⟩))
    · exact goodEntry_mono A (A ++ also) (fun a ha => List.mem_append_left _ ha) p (hst p h1)
    · exact goodEntry_mono [] (A ++ also) (fun a ha => absurd ha (List.not_mem_nil a)) p
        (imageWrites_good i [] p h1)
    · rw [h1]
      exact ⟨rfl, Or.inl rfl⟩
    · rw [h1]
      exact ⟨rfl, Or.inr ⟨a, List.mem_append_right _ ha, rfl⟩⟩

/-- Witness for C6 starting from the empty store (vacuously good). -/
theorem claimC6_witness :
    (∀ p ∈ (WriteImage noFail ⟨[], []⟩ imgA ["latest"]).1.store,
        goodEntry ([] ++ ["latest"]) p) ∧
      ∀ p ∈ (ServeIndex cfg0 noFail ⟨[], []⟩ Response.empty Method.get idx0 ["latest"]).1.store,
        goodEntry ([] ++ ["latest"]) p :=
  ⟨claimC6_digest_consistency.1 noFail [] [] imgA ["latest"] []
     (fun p hp => absurd hp (List.not_mem_nil p)),
   claimC6_digest_consistency.2 cfg0 noFail [] [] Response.empty Method.get idx0 ["latest"] []
     (fun p hp => absurd hp (List.not_mem_nil p))⟩

/-- C7: publishing the same image (with the same aliases) twice through
`WriteImage` under a failure-free store produces a store state identical
to publishing it once, and the second write returns no error. -/
theorem claimC7_idempotent_publish (st : Store) (log1 log2 : List (Tag × String))
    (img : Image) (also : List String) :
    (WriteImage noFail
        ⟨(WriteImage noFail ⟨st, log1⟩ img also).1.store, log2⟩ img also).1.store =
      (WriteImage noFail ⟨st, log1⟩ img also).1.store ∧
      (WriteImage noFail
        ⟨(WriteImage noFail ⟨st, log1⟩ img also).1.store, log2⟩ img also).2 =
        Except.ok () := by
  simp only [WriteImage_noFail]
  exact ⟨applyWrites_idem st (imageWrites img also), trivial⟩

/-- C8: `Blob` issues a 303 redirect whose target is
`resolveLocation(name)` — a pure function of the configuration and the
digest string with no I/O — and the target encodes the digest in its
path. -/
theorem claimC8_redirect_pure (cfg : Config) (w : Response) (name : String) :
    Blob cfg w name = { w with redirect := some (303, resolveLocation cfg name) } ∧
      ∃ p, resolveLocation cfg name = p ++ ("/blobs/" ++ name) := by
  refine ⟨rfl, ⟨"https://" ++ cfg.bucket ++ "." ++ cfg.endpoint, ?_⟩⟩
  simp [resolveLocation, String.append_assoc]

/-- C9: publishing `idx0` (image A with 1 layer, image B with 2 layers)
with alias "latest" and no failures yields exactly 9 store entries — the
config, layer and manifest blobs of A (3) and B (4), the index manifest
under its digest, and the same bytes under key "latest" — each observable
through `BlobExists` without error. -/
theorem claimC9_index_scenario :
    (ServeIndex cfg0 noFail ⟨[], []⟩ Response.empty Method.get idx0 ["latest"]).1.store.length
        = 9 ∧
      ([(hashBytes [1]).string, (hashBytes [2]).string, (hashBytes [3]).string,
        (hashBytes [4]).string, (hashBytes [5]).string, (hashBytes [6]).string,
        (hashBytes [7]).string, (hashBytes [8]).string, "latest"].all
        (fun n => existsOk
          (ServeIndex cfg0 noFail ⟨[], []⟩ Response.empty Method.get idx0
            ["latest"]).1.store n)) = true ∧
      (ServeIndex cfg0 noFail ⟨[], []⟩ Response.empty Method.get idx0 ["latest"]).2.2 =
        Except.ok () :=
  ⟨by decide, by decide, by decide⟩

/-- C10 counterexample: the metadata map `mdC10` lacks a `Content-Type`
entry, yet `BlobExists`' metadata decoding returns an error rather than
panicking, because the guarded digest parse fails first — so the claim's
universal statement is false as written. -/
theorem claimC10_counterexample :
    mget mdC10 metaContentType = [] ∧
      blobExistsMeta mdC10 = some (Except.error (Err.badHash "garbage")) ∧
      blobExistsMeta mdC10 ≠ none :=
  ⟨rfl, by decide, by decide⟩

/-- C10 (amended): provided the guarded digest and size parses succeed,
`BlobExists`' metadata decoding is total iff the metadata contains a
`Content-Type` entry with at least one value: absent digest and size
entries yield the zero digest and size 0 without error, but the
`Content-Type` value list is indexed unconditionally, so the decoding
panics exactly on maps whose `Content-Type` entry is absent or empty. -/
theorem claimC10_amended (md : List (String × List String))
    (hd : ∃ h, digestStep md = Except.ok h) (hs : ∃ n, sizeStep md = Except.ok n) :
    (blobExistsMeta md = none ↔ mget md metaContentType = []) ∧
      (mget md ("X-Oss-Meta-" ++ metaDockerContentDigest) = [] →
        mget md metaContentLength = [] →
        ∀ ct rest, mget md metaContentType = ct :: rest →
          blobExistsMeta md = some (Except.ok ⟨zeroHash, ct, 0⟩)) := by
  rcases hd with ⟨h, hd⟩
  rcases hs with ⟨n, hs⟩
  constructor
  · simp only [blobExistsMeta, hd, hs]
    cases hct : (mget md metaContentType).head? with
    | none =>
      simp [List.head?_eq_none_iff.mp hct]
    | some ct =>
      constructor
      · intro h2
        exact absurd h2 (by simp)
      · intro h2
        rw [h2] at hct
        exact absurd hct (by simp)
  · intro h1 h2 ct rest h3
    have hdz : digestStep md = Except.ok zeroHash := by
      simp [digestStep, h1]
    have hsz : sizeStep md = Except.ok 0 := by
      simp [sizeStep, h2]
    simp [blobExistsMeta, hdz, hsz, h3]

/-- Witness for C10 (amended) at the concrete metadata map `mdCT`. -/
theorem claimC10_witness :
    ((blobExistsMeta mdCT = none ↔ mget mdCT metaContentType = []) ∧
      (mget mdCT ("X-Oss-Meta-" ++ metaDockerContentDigest) = [] →
        mget mdCT metaContentLength = [] →
        ∀ ct rest, mget mdCT metaContentType = ct :: rest →
          blobExistsMeta mdCT = some (Except.ok ⟨zeroHash, ct, 0⟩))) :=
  claimC10_amended mdCT ⟨zeroHash, by decide⟩ ⟨0, by decide⟩
